import Mathlib

/-!
Shallow embedding of `colega/zeropool` (src/pool.go) and its alternate
implementation (src/unnamed/part_001).

A `sync.Pool` is modelled in the `zeropool` and `zeropoolv2` namespaces
as an idealized stash that retains its entries and serves the most
recently stored one first; the claims settled over this model are
insensitive to the container's retention and serving order. The real
`sync.Pool` serves a per-P private slot before the shared chain and
`Put` fills that slot only when it is empty; the `gopool` namespace
refines the container with exactly that discipline for the
ordering-sensitive round-trip property. An indirection cell `*T` is
owned by exactly one container at a time in the sequential semantics,
so a cell is represented by the payload it carries:

- `items`    : payloads of the cells currently in the `items` pool
               (valid pooled values);
- `pointers` : stale payloads of the cells currently in the `pointers`
               pool (dead data, to be overwritten before reuse);
- `factory`  : the `New` function installed on the `items` pool by
               `zeropool.New` (absent on a zero-value pool).

Two ghost counters instrument the allocation paths, which the Go code
reaches but Lean values cannot otherwise observe:

- `factoryCalls` counts executions of the `items` pool's `New` closure
  (`val := item(); return &val` — one value plus one cell allocation);
- `newCells` counts executions of `ptr = new(T)` in `Put`.

Go's zero value of `T` is rendered as `default` from `Inhabited T`.
-/

namespace zeropool

structure Pool (T : Type) where
  factory : Option (Unit → T)
  items : List T
  pointers : List T
  factoryCalls : Nat
  newCells : Nat

/-- `New` creates a `Pool[T]` whose `items` pool has a `New` closure calling
`item`; the `pointers` pool is left zero-valued. -/
def New {T : Type} (item : Unit → T) : Pool T :=
  { factory := some item, items := [], pointers := [], factoryCalls := 0, newCells := 0 }

/-- The zero value `var pool zeropool.Pool[T]`: both pools empty, no `New`. -/
def Pool.zero {T : Type} : Pool T :=
  { factory := none, items := [], pointers := [], factoryCalls := 0, newCells := 0 }

/-- `Get`: draw from `items`; on a hit read the payload out and recycle the
cell into `pointers` (the cell keeps a dead copy of the payload). On a miss,
`sync.Pool.Get` runs the `New` closure when one is set — allocating a fresh
cell holding `item()` — and `Get` then recycles that cell into `pointers`
too. Only a zero-value pool with empty `items` hits the `pooled == nil`
branch and returns the zero value of `T`. -/
def Pool.get {T : Type} [Inhabited T] (p : Pool T) : T × Pool T :=
  match p.items with
  | v :: rest =>
      (v, { p with items := rest, pointers := v :: p.pointers })
  | [] =>
      match p.factory with
      | some f =>
          let val := f ()
          (val, { p with pointers := val :: p.pointers,
                         factoryCalls := p.factoryCalls + 1 })
      | none => (default, p)

/-- `Put`: draw a spare cell from `pointers` (its stale payload is
discarded by the overwrite `*ptr = item`), falling back to `ptr = new(T)`
when none is available, then place the cell into `items`. -/
def Pool.put {T : Type} (p : Pool T) (item : T) : Pool T :=
  match p.pointers with
  | _ :: rest => { p with items := item :: p.items, pointers := rest }
  | [] => { p with items := item :: p.items, newCells := p.newCells + 1 }

/-- A single caller-visible operation on the pool. -/
inductive Op (T : Type) where
  | get : Op T
  | put : T → Op T
deriving DecidableEq

/-- Run a sequence of operations, returning the final state and the list of
values the `get` operations returned, in order. -/
def Pool.runOps {T : Type} [Inhabited T] (p : Pool T) : List (Op T) → Pool T × List T
  | [] => (p, [])
  | Op.get :: ops =>
      let r := p.get
      let rest := r.2.runOps ops
      (rest.1, r.1 :: rest.2)
  | Op.put v :: ops => (p.put v).runOps ops

/-- The three paths through `Get`'s body. -/
inductive GetBranch where
  | pooled
  | factoryFresh
  | zeroDefault
deriving DecidableEq

/-- Which path `Get` would take from state `p`: mirrors the match in
`Pool.get`. `zeroDefault` is the `pooled == nil` branch. -/
def Pool.getBranch {T : Type} (p : Pool T) : GetBranch :=
  match p.items with
  | _ :: _ => GetBranch.pooled
  | [] =>
      match p.factory with
      | some _ => GetBranch.factoryFresh
      | none => GetBranch.zeroDefault

/-- One `Get` immediately followed by `Put` of the value obtained, as in the
allocation tests and benchmarks. -/
def Pool.cycle {T : Type} [Inhabited T] (p : Pool T) : Pool T :=
  let r := p.get
  r.2.put r.1

/-- `n` alternating `Get`/`Put` cycles. -/
def Pool.cycleRun {T : Type} [Inhabited T] : Nat → Pool T → Pool T
  | 0, p => p
  | n + 1, p => Pool.cycleRun n p.cycle

/-- Two states that differ at most in the stale payloads held by the cells
of the `pointers` pool (same factory, same pooled items, same number of
spare cells, same allocation history). -/
def sparePayloadAgnostic {T : Type} (p q : Pool T) : Prop :=
  p.factory = q.factory ∧ p.items = q.items ∧
    p.pointers.length = q.pointers.length ∧
    p.factoryCalls = q.factoryCalls ∧ p.newCells = q.newCells

end zeropool

namespace zeropoolv2

/-!
The alternate implementation in src/unnamed/part_001: `New` installs a
`New` closure on both pools (`new(T)` for the `pointers` pool), and
`Get`/`Put` type-assert the drawn value without a nil check, so this
version is only usable on `New`-constructed pools. The factory is
therefore a mandatory field here.
-/

structure Pool (T : Type) where
  factory : Unit → T
  items : List T
  pointers : List T
  factoryCalls : Nat
  newCells : Nat

/-- `New` of part_001: sets `New` closures on both pools. -/
def New {T : Type} (item : Unit → T) : Pool T :=
  { factory := item, items := [], pointers := [], factoryCalls := 0, newCells := 0 }

/-- `Get` of part_001: `items.Get()` never yields nil because the pool's
`New` closure allocates `&val` with `val := item()`; the drawn cell is
recycled into `pointers` after its payload is read out. -/
def Pool.get {T : Type} (p : Pool T) : T × Pool T :=
  match p.items with
  | v :: rest =>
      (v, { p with items := rest, pointers := v :: p.pointers })
  | [] =>
      let val := p.factory ()
      (val, { p with pointers := val :: p.pointers,
                     factoryCalls := p.factoryCalls + 1 })

/-- `Put` of part_001: `pointers.Get()` never yields nil because that pool's
`New` closure is `new(T)` — a fresh zero cell, counted as an allocation;
either way the cell is overwritten with `item` and placed into `items`. -/
def Pool.put {T : Type} (p : Pool T) (item : T) : Pool T :=
  match p.pointers with
  | _ :: rest => { p with items := item :: p.items, pointers := rest }
  | [] => { p with items := item :: p.items, newCells := p.newCells + 1 }

/-- Run a sequence of operations against the part_001 implementation. -/
def Pool.runOps {T : Type} (p : Pool T) : List (zeropool.Op T) → Pool T × List T
  | [] => (p, [])
  | zeropool.Op.get :: ops =>
      let r := p.get
      let rest := r.2.runOps ops
      (rest.1, r.1 :: rest.2)
  | zeropool.Op.put v :: ops => (p.put v).runOps ops

end zeropoolv2

/-- Correspondence between a pool of the src/pool.go implementation and a
pool of the src/unnamed/part_001 implementation: same factory (configured
in the first), same items, same spare cells. -/
def simRel {T : Type} (p : zeropool.Pool T) (q : zeropoolv2.Pool T) : Prop :=
  p.factory = some q.factory ∧ p.items = q.items ∧ p.pointers = q.pointers

namespace gopool

/-!
Refined container semantics: the sequential, single-P behaviour of the
real `sync.Pool`. `Put` fills the per-P private slot only when it is
empty and otherwise pushes onto the shared chain behind it; `Get` serves
the private slot first, then the head of the shared chain. Retention is
still assumed (no discard), but the serving order is the real one, which
is what decides whether a `Put`/`Get` pair round-trips from an arbitrary
state.
-/

/-- Sequential state of one `sync.Pool`: the private slot and the shared
chain behind it. -/
structure SyncPool (α : Type) where
  priv : Option α
  shared : List α

def SyncPool.empty {α : Type} : SyncPool α := ⟨none, []⟩

/-- `sync.Pool.Put`: fill the private slot when it is empty, otherwise
push onto the head of the shared chain, behind the occupied slot. -/
def SyncPool.put {α : Type} (s : SyncPool α) (x : α) : SyncPool α :=
  match s.priv with
  | none => { s with priv := some x }
  | some _ => { s with shared := x :: s.shared }

/-- `sync.Pool.Get` without the `New` fallback: serve the private slot
first, then the head of the shared chain, else report emptiness. -/
def SyncPool.draw {α : Type} (s : SyncPool α) : Option α × SyncPool α :=
  match s.priv with
  | some x => (some x, { s with priv := none })
  | none =>
      match s.shared with
      | x :: rest => (some x, { s with shared := rest })
      | [] => (none, s)

/-- src/pool.go `Pool[T]` over the private-slot container semantics;
cells are again identified with the payloads they carry. -/
structure Pool (T : Type) where
  factory : Option (Unit → T)
  items : SyncPool T
  pointers : SyncPool T

/-- `zeropool.New` over the private-slot container semantics. -/
def New {T : Type} (item : Unit → T) : Pool T :=
  { factory := some item, items := SyncPool.empty, pointers := SyncPool.empty }

/-- The zero value of `Pool[T]` over the private-slot container
semantics. -/
def Pool.zero {T : Type} : Pool T :=
  { factory := none, items := SyncPool.empty, pointers := SyncPool.empty }

/-- `Get` of src/pool.go over the private-slot container semantics: on a
hit the cell (keeping a dead copy of the payload) is recycled into the
`pointers` pool; on a miss the `New` closure, when set, produces the
value in a fresh cell that is recycled the same way; otherwise the zero
value is returned. -/
def Pool.get {T : Type} [Inhabited T] (p : Pool T) : T × Pool T :=
  match p.items.draw with
  | (some v, items2) =>
      (v, { p with items := items2, pointers := p.pointers.put v })
  | (none, items2) =>
      match p.factory with
      | some f =>
          let val := f ()
          (val, { p with items := items2, pointers := p.pointers.put val })
      | none => (default, { p with items := items2 })

/-- `Put` of src/pool.go over the private-slot container semantics: a
spare cell is drawn from `pointers` when available (its stale payload
dies in the overwrite `*ptr = item`) and `new(T)` is used otherwise;
either way a cell holding `item` is released to `items`. -/
def Pool.put {T : Type} (p : Pool T) (item : T) : Pool T :=
  let drawn := p.pointers.draw
  { p with items := p.items.put item, pointers := drawn.2 }

end gopool

namespace zeropool

/-! Helper lemmas on single steps. -/

theorem put_items {T : Type} (p : Pool T) (v : T) :
    (p.put v).items = v :: p.items := by
  cases h : p.pointers <;> simp [Pool.put, h]

theorem put_factory {T : Type} (p : Pool T) (v : T) :
    (p.put v).factory = p.factory := by
  cases h : p.pointers <;> simp [Pool.put, h]

theorem get_factory {T : Type} [Inhabited T] (p : Pool T) :
    (p.get).2.factory = p.factory := by
  cases hi : p.items with
  | nil => cases hf : p.factory <;> simp [Pool.get, hi, hf]
  | cons v rest => simp [Pool.get, hi]

theorem runOps_factory {T : Type} [Inhabited T] (p : Pool T) (ops : List (Op T)) :
    ((p.runOps ops).1).factory = p.factory := by
  induction ops generalizing p with
  | nil => simp [Pool.runOps]
  | cons op ops ih =>
      cases op with
      | get => simpa [Pool.runOps, get_factory] using ih p.get.2
      | put v => simpa [Pool.runOps, put_factory] using ih (p.put v)

/-- C3 counterexample: on a zero-initialized pool, a preceding `Put` makes
`Get` return the pooled value `5`, not the default value `0` of `Nat`. -/
theorem zero_pool_get_after_put_not_default :
    (((Pool.zero : Pool Nat).put 5).get).1 ≠ (default : Nat) := by
  decide

/-- C3 amended: a zero-initialized pool returns the default value of `T`
from `Get` while its item container is empty, but a `Put` value is pooled
and returned by the next `Get`. -/
theorem zero_pool_behaviour {T : Type} [Inhabited T] (v : T) :
    ((Pool.zero : Pool T).get).1 = default ∧
      (((Pool.zero : Pool T).put v).get).1 = v := by
  constructor
  · simp [Pool.zero, Pool.get]
  · simp [Pool.zero, Pool.put, Pool.get]

/-- C4: on an unconfigured pool (no factory) whose item container is
empty, `Get` returns the default value of `T`, and a `Put` followed by a
`Get` completes, returning the value put. -/
theorem zero_pool_get_default {T : Type} [Inhabited T] (p : Pool T) (v : T)
    (hf : p.factory = none) (hi : p.items = []) :
    (p.get).1 = default ∧ ((p.put v).get).1 = v := by
  constructor
  · simp [Pool.get, hi, hf]
  · cases h : p.pointers <;> simp [Pool.put, Pool.get, h]

/-- C4 witness: the zero-value `Pool Nat` with its empty item container. -/
theorem zero_pool_get_default_witness :
    ((Pool.zero : Pool Nat).factory = none ∧ (Pool.zero : Pool Nat).items = []) ∧
      (((Pool.zero : Pool Nat).get).1 = default ∧
        (((Pool.zero : Pool Nat).put 7).get).1 = 7) :=
  ⟨⟨rfl, rfl⟩, zero_pool_get_default Pool.zero 7 rfl rfl⟩

/-- C5: `Put(v)` pushes a cell with payload `v` into the item container;
the cell is the spare cell drawn from the spare-cell container when one is
available (its stale payload dropped by the overwrite), and a newly
allocated cell (counted by `newCells`) exactly when no spare is available.
Afterwards the item container holds a cell whose payload equals `v`. -/
theorem put_algorithm {T : Type} (p : Pool T) (v : T) :
    (p.put v).items = v :: p.items ∧
      (p.put v).pointers = p.pointers.tail ∧
      (p.put v).newCells = p.newCells + (if p.pointers.isEmpty then 1 else 0) ∧
      (p.put v).factory = p.factory ∧
      (p.put v).factoryCalls = p.factoryCalls ∧
      v ∈ (p.put v).items := by
  cases h : p.pointers <;> simp [Pool.put, h]

/-- C2 counterexample: on a `New`-constructed pool with empty item
container, the factory path of `Get` does involve an indirection cell —
the cell allocated by the items pool's `New` closure — and `Get` places it
into the spare-cell container, which is therefore not left unchanged. -/
theorem get_factory_path_changes_pointers :
    (((New (fun _ => (42 : Nat))).get).2).pointers
      ≠ (New (fun _ => (42 : Nat))).pointers := by
  decide

/-- C2 amended: when `Get` finds the item container empty and a factory is
configured, the factory runs once inside a freshly allocated cell; `Get`
returns the produced value and recycles that cell into the spare-cell
container, which grows by the new cell (stale payload `f ()`); the item
container stays empty and no `Put`-side cell allocation occurs. -/
theorem get_factory_path {T : Type} [Inhabited T] (p : Pool T) (f : Unit → T)
    (hf : p.factory = some f) (hi : p.items = []) :
    (p.get).1 = f () ∧
      (p.get).2.pointers = f () :: p.pointers ∧
      (p.get).2.factoryCalls = p.factoryCalls + 1 ∧
      (p.get).2.items = [] ∧
      (p.get).2.newCells = p.newCells ∧
      (p.get).2.factory = p.factory := by
  simp [Pool.get, hi, hf]

/-- C2 amended witness: the freshly constructed pool with factory `42`. -/
theorem get_factory_path_witness :
    ((New (fun _ => (42 : Nat))).factory = some (fun _ => (42 : Nat)) ∧
        (New (fun _ => (42 : Nat))).items = []) ∧
      (((New (fun _ => (42 : Nat))).get).1 = (fun _ => (42 : Nat)) () ∧
        ((New (fun _ => (42 : Nat))).get).2.pointers
            = (fun _ => (42 : Nat)) () :: (New (fun _ => (42 : Nat))).pointers ∧
        ((New (fun _ => (42 : Nat))).get).2.factoryCalls
            = (New (fun _ => (42 : Nat))).factoryCalls + 1 ∧
        ((New (fun _ => (42 : Nat))).get).2.items = [] ∧
        ((New (fun _ => (42 : Nat))).get).2.newCells
            = (New (fun _ => (42 : Nat))).newCells ∧
        ((New (fun _ => (42 : Nat))).get).2.factory
            = (New (fun _ => (42 : Nat))).factory) :=
  ⟨⟨rfl, rfl⟩, get_factory_path (New (fun _ => (42 : Nat))) (fun _ => (42 : Nat)) rfl rfl⟩

/-- On a state whose item container is nonempty, a `Get` immediately
followed by `Put` of the value obtained restores the state exactly —
in particular it runs neither the factory nor `new(T)`. -/
theorem cycle_fixed {T : Type} [Inhabited T] (p : Pool T) (v : T) (rest : List T)
    (hi : p.items = v :: rest) :
    p.cycle = p := by
  cases p
  simp only at hi
  subst hi
  simp [Pool.cycle, Pool.get, Pool.put]

theorem cycleRun_fixed {T : Type} [Inhabited T] (p : Pool T) (v : T) (rest : List T)
    (hi : p.items = v :: rest) (n : Nat) :
    Pool.cycleRun n p = p := by
  induction n with
  | zero => rfl
  | succ n ih => simpa [Pool.cycleRun, cycle_fixed p v rest hi] using ih

theorem warmup_state {T : Type} [Inhabited T] (f : Unit → T) :
    ((New f).cycle) = { factory := some f, items := [f ()], pointers := [],
                        factoryCalls := 1, newCells := 0 } := by
  simp [New, Pool.cycle, Pool.get, Pool.put]

/-- C8: on a `New`-constructed pool, after one warm-up `Get`/`Put` cycle,
any number of further alternating `Get`/`Put` cycles leaves the state
fixed — in particular the factory-call and new-cell allocation counters
never move again, so neither allocation path is executed. -/
theorem warm_cycles_no_alloc {T : Type} [Inhabited T] (f : Unit → T) (n : Nat) :
    Pool.cycleRun n ((New f).cycle) = (New f).cycle ∧
      (Pool.cycleRun n ((New f).cycle)).factoryCalls = ((New f).cycle).factoryCalls ∧
      (Pool.cycleRun n ((New f).cycle)).newCells = ((New f).cycle).newCells := by
  have hfix : Pool.cycleRun n ((New f).cycle) = (New f).cycle := by
    refine cycleRun_fixed _ (f ()) [] ?_ n
    rw [warmup_state]
  exact ⟨hfix, by rw [hfix], by rw [hfix]⟩

/-- C9: on any pool reachable by `Get`/`Put` steps from a `New`-constructed
pool the factory stays configured, so the `pooled == nil` branch of `Get`
(the zero-value fallback) is never taken: `Get` always draws a pooled cell
or runs the factory, and in this typed embedding the cell assertion `.(*T)`
is vacuously satisfied. -/
theorem new_pool_zero_branch_unreachable {T : Type} [Inhabited T]
    (f : Unit → T) (ops : List (Op T)) :
    (((New f).runOps ops).1).getBranch ≠ GetBranch.zeroDefault := by
  have hf : (((New f).runOps ops).1).factory = some f := by
    rw [runOps_factory]
    rfl
  intro h
  cases hi : (((New f).runOps ops).1).items with
  | nil => rw [Pool.getBranch, hi, hf] at h; exact GetBranch.noConfusion h
  | cons a l => rw [Pool.getBranch, hi] at h; exact GetBranch.noConfusion h

/-- Every value a run returns came from the initial item container, from
the configured factory, from a `Put` in the run, or is the zero-value
fallback of an unconfigured pool. -/
theorem runOps_out_origin {T : Type} [Inhabited T] (ops : List (Op T)) :
    ∀ (p : Pool T) (v : T), v ∈ (p.runOps ops).2 →
      v ∈ p.items ∨ (∃ f, p.factory = some f ∧ v = f ()) ∨ Op.put v ∈ ops ∨
        (p.factory = none ∧ v = default) := by
  induction ops with
  | nil => intro p v h; simp [Pool.runOps] at h
  | cons op ops ih =>
      intro p v h
      obtain ⟨pf, pi, pp, pfc, pnc⟩ := p
      cases op with
      | get =>
          cases pi with
          | cons a rest =>
              simp only [Pool.runOps, Pool.get, List.mem_cons] at h
              rcases h with h | h
              · exact Or.inl (h ▸ List.mem_cons_self a rest)
              · rcases ih _ _ h with h1 | h2 | h3 | h4
                · exact Or.inl (List.mem_cons_of_mem _ h1)
                · exact Or.inr (Or.inl h2)
                · exact Or.inr (Or.inr (Or.inl (List.mem_cons_of_mem _ h3)))
                · exact Or.inr (Or.inr (Or.inr h4))
          | nil =>
              cases pf with
              | some f =>
                  simp only [Pool.runOps, Pool.get, List.mem_cons] at h
                  rcases h with h | h
                  · exact Or.inr (Or.inl ⟨f, rfl, h⟩)
                  · rcases ih _ _ h with h1 | h2 | h3 | h4
                    · simp at h1
                    · exact Or.inr (Or.inl h2)
                    · exact Or.inr (Or.inr (Or.inl (List.mem_cons_of_mem _ h3)))
                    · exact Or.inr (Or.inr (Or.inr h4))
              | none =>
                  simp only [Pool.runOps, Pool.get, List.mem_cons] at h
                  rcases h with h | h
                  · exact Or.inr (Or.inr (Or.inr ⟨rfl, h⟩))
                  · rcases ih _ _ h with h1 | h2 | h3 | h4
                    · simp at h1
                    · exact Or.inr (Or.inl h2)
                    · exact Or.inr (Or.inr (Or.inl (List.mem_cons_of_mem _ h3)))
                    · exact Or.inr (Or.inr (Or.inr h4))
      | put w =>
          cases pp with
          | cons c rest =>
              simp only [Pool.runOps, Pool.put] at h
              rcases ih _ _ h with h1 | h2 | h3 | h4
              · rcases List.mem_cons.mp h1 with h1 | h1
                · exact Or.inr (Or.inr (Or.inl (h1 ▸ List.mem_cons_self _ _)))
                · exact Or.inl h1
              · exact Or.inr (Or.inl h2)
              · exact Or.inr (Or.inr (Or.inl (List.mem_cons_of_mem _ h3)))
              · exact Or.inr (Or.inr (Or.inr h4))
          | nil =>
              simp only [Pool.runOps, Pool.put] at h
              rcases ih _ _ h with h1 | h2 | h3 | h4
              · rcases List.mem_cons.mp h1 with h1 | h1
                · exact Or.inr (Or.inr (Or.inl (h1 ▸ List.mem_cons_self _ _)))
                · exact Or.inl h1
              · exact Or.inr (Or.inl h2)
              · exact Or.inr (Or.inr (Or.inl (List.mem_cons_of_mem _ h3)))
              · exact Or.inr (Or.inr (Or.inr h4))

/-- C6: in every run from an initial pool, each value returned by a `Get`
is either the factory's product (for a `New`-constructed pool), a value
previously given to `Put` in the run, or (for an unconfigured pool) the
default value of `T` — no other origin is possible. -/
theorem get_values_origin {T : Type} [Inhabited T] (f : Unit → T)
    (ops : List (Op T)) (v : T) :
    (v ∈ ((New f).runOps ops).2 → v = f () ∨ Op.put v ∈ ops) ∧
      (v ∈ ((Pool.zero : Pool T).runOps ops).2 → v = default ∨ Op.put v ∈ ops) := by
  constructor
  · intro h
    rcases runOps_out_origin ops (New f) v h with h1 | ⟨g, hg, hv⟩ | h3 | ⟨hn, _⟩
    · simp [New] at h1
    · have hfg : f = g := by simpa [New] using hg
      exact Or.inl (hfg ▸ hv)
    · exact Or.inr h3
    · simp [New] at hn
  · intro h
    rcases runOps_out_origin ops (Pool.zero : Pool T) v h
        with h1 | ⟨g, hg, _⟩ | h3 | ⟨_, hv⟩
    · simp [Pool.zero] at h1
    · simp [Pool.zero] at hg
    · exact Or.inr h3
    · exact Or.inl hv

/-- C6 witness: a run that puts `5` and gets it back; the origin of the
returned `5` is the `Put` in the run. -/
theorem get_values_origin_witness :
    (5 : Nat) ∈ ((New (fun _ => (1 : Nat))).runOps [Op.put 5, Op.get]).2 ∧
      ((5 : Nat) = (fun _ => (1 : Nat)) () ∨
        Op.put (5 : Nat) ∈ [Op.put (5 : Nat), Op.get]) :=
  ⟨by decide,
    (get_values_origin (fun _ => (1 : Nat)) [Op.put 5, Op.get] 5).1 (by decide)⟩

theorem step_get_agnostic {T : Type} [Inhabited T] (p q : Pool T)
    (h : sparePayloadAgnostic p q) :
    (p.get).1 = (q.get).1 ∧ sparePayloadAgnostic (p.get).2 (q.get).2 := by
  obtain ⟨hf, hi, hl, hfc, hnc⟩ := h
  obtain ⟨pf, pi, pp, pfc, pnc⟩ := p
  obtain ⟨qf, qi, qp, qfc, qnc⟩ := q
  simp only at hf hi hl hfc hnc
  subst hf hi hfc hnc
  cases pi with
  | cons a rest => exact ⟨rfl, rfl, rfl, by simpa [Pool.get] using hl, rfl, rfl⟩
  | nil =>
      cases pf with
      | some f => exact ⟨rfl, rfl, rfl, by simpa [Pool.get] using hl, rfl, rfl⟩
      | none => exact ⟨rfl, rfl, rfl, hl, rfl, rfl⟩

theorem step_put_agnostic {T : Type} (p q : Pool T) (v : T)
    (h : sparePayloadAgnostic p q) :
    sparePayloadAgnostic (p.put v) (q.put v) := by
  obtain ⟨hf, hi, hl, hfc, hnc⟩ := h
  obtain ⟨pf, pi, pp, pfc, pnc⟩ := p
  obtain ⟨qf, qi, qp, qfc, qnc⟩ := q
  simp only at hf hi hl hfc hnc
  subst hf hi hfc hnc
  cases pp with
  | nil =>
      cases qp with
      | nil => exact ⟨rfl, rfl, rfl, rfl, rfl⟩
      | cons b rb => simp at hl
  | cons a ra =>
      cases qp with
      | nil => simp at hl
      | cons b rb => exact ⟨rfl, rfl, by simpa using hl, rfl, rfl⟩

/-- C7: stale spare-cell payloads are never observed. Two pool states that
differ only in the payloads their spare cells hold produce identical
values from every `Get` of any operation sequence: `Put` overwrites a
drawn spare cell before it reaches the item container. -/
theorem spare_payload_noninterference {T : Type} [Inhabited T] (p q : Pool T)
    (h : sparePayloadAgnostic p q) (ops : List (Op T)) :
    (p.runOps ops).2 = (q.runOps ops).2 := by
  induction ops generalizing p q with
  | nil => simp [Pool.runOps]
  | cons op ops ih =>
      cases op with
      | get =>
          obtain ⟨h1, h2⟩ := step_get_agnostic p q h
          simp only [Pool.runOps]
          rw [h1, ih _ _ h2]
      | put v =>
          simp only [Pool.runOps]
          exact ih _ _ (step_put_agnostic p q v h)

/-- C7 witness: two unconfigured pools whose single spare cells hold the
different stale payloads `10` and `20` return the same values throughout
a get/put/get run. -/
theorem spare_payload_noninterference_witness :
    sparePayloadAgnostic
        (⟨none, [], [10], 0, 0⟩ : Pool Nat) (⟨none, [], [20], 0, 0⟩ : Pool Nat) ∧
      ((⟨none, [], [10], 0, 0⟩ : Pool Nat).runOps [Op.get, Op.put 3, Op.get]).2
        = ((⟨none, [], [20], 0, 0⟩ : Pool Nat).runOps [Op.get, Op.put 3, Op.get]).2 :=
  ⟨⟨rfl, rfl, rfl, rfl, rfl⟩,
    spare_payload_noninterference _ _ ⟨rfl, rfl, rfl, rfl, rfl⟩ _⟩

end zeropool

theorem simRel_outputs {T : Type} [Inhabited T] (ops : List (zeropool.Op T)) :
    ∀ (p : zeropool.Pool T) (q : zeropoolv2.Pool T), simRel p q →
      (p.runOps ops).2 = (q.runOps ops).2 := by
  induction ops with
  | nil => intro p q h; rfl
  | cons op ops ih =>
      intro p q h
      obtain ⟨hf, hi, hp⟩ := h
      obtain ⟨pf, pi, pp, pfc, pnc⟩ := p
      obtain ⟨qf, qi, qp, qfc, qnc⟩ := q
      simp only at hf hi hp
      subst hf hi hp
      cases op with
      | get =>
          cases pi with
          | cons a rest =>
              simp only [zeropool.Pool.runOps, zeropoolv2.Pool.runOps,
                zeropool.Pool.get, zeropoolv2.Pool.get]
              exact congrArg (List.cons a) (ih _ _ ⟨rfl, rfl, rfl⟩)
          | nil =>
              simp only [zeropool.Pool.runOps, zeropoolv2.Pool.runOps,
                zeropool.Pool.get, zeropoolv2.Pool.get]
              exact congrArg (List.cons (qf ())) (ih _ _ ⟨rfl, rfl, rfl⟩)
      | put v =>
          cases pp with
          | cons c rest =>
              simp only [zeropool.Pool.runOps, zeropoolv2.Pool.runOps,
                zeropool.Pool.put, zeropoolv2.Pool.put]
              exact ih _ _ ⟨rfl, rfl, rfl⟩
          | nil =>
              simp only [zeropool.Pool.runOps, zeropoolv2.Pool.runOps,
                zeropool.Pool.put, zeropoolv2.Pool.put]
              exact ih _ _ ⟨rfl, rfl, rfl⟩

/-- C10: on `New`-constructed pools with the same factory, the src/pool.go
implementation and the src/unnamed/part_001 implementation return the same
value from every `Get` of every operation sequence. -/
theorem versions_observationally_equal {T : Type} [Inhabited T]
    (f : Unit → T) (ops : List (zeropool.Op T)) :
    ((zeropool.New f).runOps ops).2 = ((zeropoolv2.New f).runOps ops).2 :=
  simRel_outputs ops (zeropool.New f) (zeropoolv2.New f) ⟨rfl, rfl, rfl⟩

namespace gopool

/-- After any `Get`, the item container's private slot is empty: `Get`
drains the slot when it was occupied and leaves it empty otherwise. -/
theorem get_leaves_private_empty {T : Type} [Inhabited T] (p : Pool T) :
    (((p.get).2).items).priv = none := by
  obtain ⟨pf, ⟨ip, ish⟩, pts⟩ := p
  cases ip with
  | some x => simp [Pool.get, SyncPool.draw]
  | none =>
      cases ish with
      | cons a rest => simp [Pool.get, SyncPool.draw]
      | nil =>
          cases pf with
          | some f => simp [Pool.get, SyncPool.draw]
          | none => simp [Pool.get, SyncPool.draw]

/-- C1 counterexample: from the reachable state `Put(1); Put(2)` of a
zero-initialized pool, the pair `Put(5); Get()` returns `1`, the occupant
of the item container's private slot, and not the value `5` just put —
`Put` pushes behind an occupied private slot and `Get` serves that slot
first, so the unconditional round trip fails. -/
theorem put_then_get_not_roundtrip :
    (((((Pool.zero : Pool Nat).put 1).put 2).put 5).get).1 ≠ 5 := by
  decide

/-- C1 amended: `Put(v)` immediately followed by `Get()` (no intervening
operations) returns a value equal to `v` whenever the item container's
private slot is empty at the `Put` — as on a fresh pool, or immediately
after any `Get`; with an occupied private slot, `Get` returns the
occupant instead of `v`. -/
theorem put_then_get_roundtrip_private_empty {T : Type} [Inhabited T]
    (p : Pool T) (v : T) (hpriv : p.items.priv = none) :
    ((p.put v).get).1 = v := by
  obtain ⟨pf, ⟨ip, ish⟩, pts⟩ := p
  simp only at hpriv
  subst hpriv
  simp [Pool.put, Pool.get, SyncPool.put, SyncPool.draw]

/-- C1 amended witness: the fresh zero pool has an empty private slot and
round-trips `7`. -/
theorem put_then_get_roundtrip_private_empty_witness :
    (Pool.zero : Pool Nat).items.priv = none ∧
      ((((Pool.zero : Pool Nat).put 7).get).1 = 7) :=
  ⟨rfl, put_then_get_roundtrip_private_empty Pool.zero 7 rfl⟩

end gopool
